import Mathlib

/-!
Shallow embedding of the task model of `src/frontend2/client/pages/Index.tsx`
(repository AI_Hackathon): the Task/SubTask data model, the status aggregation
engine (`updateTaskStatus`, `updateSubtaskStatus`), the manual toggle cycle
used by the click handlers, the task-tree builder inside `fetchUpdates`, and
the time-window filter (`filteredTasks`).

Timestamps (`Date` values, millisecond epochs) are modelled as `Int`.
`Date.now()` is called repeatedly during one build pass; its successive return
values are modelled by oracle functions supplied as parameters, so every
theorem below is universally quantified over the actual clock readings.
JavaScript string truthiness (only the empty string is falsy among strings)
is modelled explicitly.
-/

namespace AIHackathon

/-- Status literal type of `Task.status` / `SubTask.status` in the source:
`'pending' | 'in-progress' | 'completed'`. -/
inductive Status where
  | pending
  | inProgress
  | completed
deriving DecidableEq, Repr

/-- Priority literal type of `Task.priority`: `'low' | 'medium' | 'high'`. -/
inductive Priority where
  | low
  | medium
  | high
deriving DecidableEq, Repr

/-- The `SubTask` interface (Index.tsx lines 30-37). -/
structure SubTask where
  id : String
  title : String
  status : Status
  output : Option String := none
  description : Option String := none
  completedAt : Option Int := none
deriving DecidableEq, Repr

/-- The `Task` interface (Index.tsx lines 39-47).  Note that, unlike
`SubTask`, it declares no `completedAt` field. -/
structure Task where
  id : String
  title : String
  description : String
  status : Status
  priority : Priority
  createdAt : Int
  subtasks : List SubTask
deriving DecidableEq, Repr

/-- Reading `task.completedAt` in the source yields `undefined` for every
`Task`, because the `Task` interface declares no such field and no code path
assigns one. -/
def Task.completedAt (_ : Task) : Option Int := none

/-- The per-task body of the `tasks.map` in `updateTaskStatus` (line 371). -/
def setTaskStatus (taskId : String) (newStatus : Status) (task : Task) : Task :=
  if task.id = taskId then { task with status := newStatus } else task

/-- `updateTaskStatus` (Index.tsx lines 369-373): map over the collection,
replacing the status of the task whose id matches. -/
def updateTaskStatus (tasks : List Task) (taskId : String) (newStatus : Status) :
    List Task :=
  tasks.map (setTaskStatus taskId newStatus)

/-- The per-subtask body of the inner `subtasks.map` (lines 378-382): the
matching subtask gets the new status, and `completedAt` is set to the current
time when the new status is `completed` and cleared (`undefined`) otherwise. -/
def setSubtask (subtaskId : String) (newStatus : Status) (now : Int)
    (subtask : SubTask) : SubTask :=
  if subtask.id = subtaskId then
    { subtask with
      status := newStatus,
      completedAt := if newStatus = Status.completed then some now else none }
  else subtask

/-- The inner `subtasks.map` of `updateSubtaskStatus` (lines 378-382). -/
def updatedSubtasksOf (subtasks : List SubTask) (subtaskId : String)
    (newStatus : Status) (now : Int) : List SubTask :=
  subtasks.map (setSubtask subtaskId newStatus now)

/-- The parent-status computation of `updateSubtaskStatus` (lines 384-392):
count completed and in-progress subtasks and pick the parent status by the
if/else chain of the source. -/
def derivedStatus (subtasks : List SubTask) : Status :=
  let completedSubtasks :=
    (subtasks.filter fun st => st.status == Status.completed).length
  let inProgressSubtasks :=
    (subtasks.filter fun st => st.status == Status.inProgress).length
  if completedSubtasks = subtasks.length then Status.completed
  else if inProgressSubtasks > 0 ∨ completedSubtasks > 0 then Status.inProgress
  else Status.pending

/-- The per-task body of the `tasks.map` in `updateSubtaskStatus`
(lines 376-396). -/
def updateTaskForSubtask (taskId subtaskId : String) (newStatus : Status)
    (now : Int) (task : Task) : Task :=
  if task.id = taskId then
    { task with
      subtasks := updatedSubtasksOf task.subtasks subtaskId newStatus now,
      status := derivedStatus (updatedSubtasksOf task.subtasks subtaskId newStatus now) }
  else task

/-- `updateSubtaskStatus` (Index.tsx lines 375-398). -/
def updateSubtaskStatus (tasks : List Task) (taskId subtaskId : String)
    (newStatus : Status) (now : Int) : List Task :=
  tasks.map (updateTaskForSubtask taskId subtaskId newStatus now)

/-- The ternary chain of both click handlers (lines 677-678 and 715-716):
`'pending' ? 'in-progress' : 'in-progress' ? 'completed' : 'pending'`. -/
def nextStatus (s : Status) : Status :=
  if s = Status.pending then Status.inProgress
  else if s = Status.inProgress then Status.completed
  else Status.pending

/-- Status of the (first) task with the given id, as read by the rendered
click handler that closes over that task. -/
def getTaskStatus (tasks : List Task) (taskId : String) : Option Status :=
  (tasks.find? fun task => task.id == taskId).map Task.status

/-- Status of the (first) subtask with the given id inside the (first) task
with the given id, as read by the rendered subtask click handler. -/
def getSubtaskStatus (tasks : List Task) (taskId subtaskId : String) :
    Option Status :=
  ((tasks.find? fun task => task.id == taskId).bind fun task =>
    task.subtasks.find? fun st => st.id == subtaskId).map SubTask.status

/-- One user click on a task's status icon (lines 675-684): read the current
status, advance it one step along the cycle, and call `updateTaskStatus`. -/
def toggleTask (tasks : List Task) (taskId : String) : List Task :=
  match getTaskStatus tasks taskId with
  | none => tasks
  | some s => updateTaskStatus tasks taskId (nextStatus s)

/-- One user click on a subtask's status icon (lines 713-718). -/
def toggleSubtask (tasks : List Task) (taskId subtaskId : String) (now : Int) :
    List Task :=
  match getSubtaskStatus tasks taskId subtaskId with
  | none => tasks
  | some s => updateSubtaskStatus tasks taskId subtaskId (nextStatus s) now

/-! ## Time-window filter -/

/-- The three window tags of `updatesFilter`. -/
inductive Window where
  | today
  | yesterday
  | week
deriving DecidableEq, Repr

/-- The three values of `activeTab`. -/
inductive Tab where
  | updates
  | tasks
  | chat
deriving DecidableEq, Repr

/-- `24 * 60 * 60 * 1000` milliseconds, as in lines 526-527. -/
def msPerDay : Int := 24 * 60 * 60 * 1000

/-- The `hasRecentSubtaskActivity` test for one subtask (lines 530-543):
false when `completedAt` is absent, otherwise the window comparison against
start-of-today / start-of-today minus 24h / minus 7 days. -/
def subtaskActiveIn (w : Window) (today : Int) (st : SubTask) : Bool :=
  match st.completedAt with
  | none => false
  | some completedDate =>
    match w with
    | Window.today => decide (today ≤ completedDate)
    | Window.yesterday =>
        decide (today - msPerDay ≤ completedDate) && decide (completedDate < today)
    | Window.week => decide (today - 7 * msPerDay ≤ completedDate)

/-- The `isRecentTask` test (lines 545-557): the same comparisons applied to
the task's own `createdAt`. -/
def createdIn (w : Window) (today : Int) (createdAt : Int) : Bool :=
  match w with
  | Window.today => decide (today ≤ createdAt)
  | Window.yesterday =>
      decide (today - msPerDay ≤ createdAt) && decide (createdAt < today)
  | Window.week => decide (today - 7 * msPerDay ≤ createdAt)

/-- The per-task predicate of the filter (line 559):
`hasRecentSubtaskActivity || isRecentTask`. -/
def taskMatchesWindow (w : Window) (today : Int) (task : Task) : Bool :=
  task.subtasks.any (subtaskActiveIn w today) || createdIn w today task.createdAt

/-- `filteredTasks` (Index.tsx lines 519-561).  `today` stands for the start
of the current calendar day computed from `new Date()`; all comparisons in the
source use only this value. -/
def filteredTasks (tab : Tab) (w : Window) (today : Int) (tasks : List Task) :
    List Task :=
  if tab = Tab.updates then tasks
  else tasks.filter (taskMatchesWindow w today)

/-! ## Task tree builder (the mapping inside `fetchUpdates`, lines 238-269)

Identifiers are template strings over `Date.now()` and positional indices:
`` `${Date.now()}-${index}` `` for a task and
`` `${Date.now()}-${index}-${subIndex}` `` for a subtask.  JavaScript renders
a `Date.now()` value as its decimal numeral; `decRepr` below is exactly that
decimal rendering (digits of the number, most significant first, with `0`
rendered as `"0"`). -/

/-- Decimal rendering of a natural number as a list of characters, most
significant digit first (what a JavaScript template literal produces). -/
def decRepr (n : Nat) : List Char :=
  if n = 0 then ['0'] else ((Nat.digits 10 n).map Nat.digitChar).reverse

/-- Decimal rendering as a `String`. -/
def natStr (n : Nat) : String := ⟨decRepr n⟩

/-- Task id `` `${t}-${i}` `` where `t` is the `Date.now()` reading and `i`
the record's index in the update array. -/
def mkTaskId (t i : Nat) : String := ⟨decRepr t ++ '-' :: decRepr i⟩

/-- Subtask id `` `${t}-${i}-${j}` `` where `t` is the `Date.now()` reading,
`i` the record's index and `j` the step's index. -/
def mkSubId (t i j : Nat) : String :=
  ⟨decRepr t ++ ('-' :: (decRepr i ++ ('-' :: decRepr j)))⟩

/-- One element of a record's `steps` array.  Every field the source reads is
optional in the incoming JSON; `none` models an absent (or `undefined`)
field. -/
structure StepRec where
  step : Option String := none
  status : Option String := none
  output : Option String := none
  description : Option String := none
deriving DecidableEq, Repr

/-- One update record (`toolData`).  `steps := none` models a record whose
`steps` field is absent or not an array (the source only distinguishes
`Array.isArray(toolData.steps)` from everything else). -/
structure UpdateRec where
  title : Option String := none
  description : Option String := none
  status : Option String := none
  priority : Option String := none
  steps : Option (List StepRec) := none
deriving DecidableEq, Repr

/-- JavaScript truthiness of an optional string: absent, `undefined` and the
empty string are falsy; every other string is truthy. -/
def strTruthy : Option String → Bool
  | none => false
  | some s => decide (s ≠ "")

/-- `step.status ? step.status.toLowerCase() : 'pending'` (line 246); the
same shape is used for the task's own status with the same default
(line 258). -/
def statusKeyOf (o : Option String) : String :=
  match o with
  | some s => if s = "" then "pending" else s.toLower
  | none => "pending"

/-- `status === 'completed' ? 'completed' : status === 'in-progress' ?
'in-progress' : 'pending'` (lines 250 and 264). -/
def statusOf (o : Option String) : Status :=
  let status := statusKeyOf o
  if status = "completed" then Status.completed
  else if status = "in-progress" then Status.inProgress
  else Status.pending

/-- `completedAt: status === 'completed' ? new Date() : undefined`
(line 253), computed from the same lowercased key. -/
def subCompletedAt (o : Option String) (now : Int) : Option Int :=
  if statusKeyOf o = "completed" then some now else none

/-- `toolData.priority ? toolData.priority.toLowerCase() : 'medium'`
(line 257). -/
def priorityKeyOf (o : Option String) : String :=
  match o with
  | some s => if s = "" then "medium" else s.toLower
  | none => "medium"

/-- `priority === 'high' ? 'high' : priority === 'low' ? 'low' : 'medium'`
(line 265). -/
def priorityOf (o : Option String) : Priority :=
  let priority := priorityKeyOf o
  if priority = "high" then Priority.high
  else if priority = "low" then Priority.low
  else Priority.medium

/-- The subtask constructed from step `j` of record `i` (lines 245-254).
`tS j` is the `Date.now()` reading taken while building this subtask. -/
def mkSubTask (tS : Nat → Nat) (now : Int) (i j : Nat) (s : StepRec) : SubTask :=
  { id := mkSubId (tS j) i j,
    title :=
      match s.step with
      | some str => if str = "" then "Step " ++ natStr (j + 1) else str
      | none => "Step " ++ natStr (j + 1),
    status := statusOf s.status,
    output := s.output,
    description := s.description,
    completedAt := subCompletedAt s.status now }

/-- The `steps.map` with its running `subIndex` (line 245). -/
def buildSubs (tS : Nat → Nat) (now : Int) (i : Nat) : Nat → List StepRec → List SubTask
  | _, [] => []
  | j, s :: rest => mkSubTask tS now i j s :: buildSubs tS now i (j + 1) rest

/-- The task constructed from record `i` (lines 260-268), with its `|| `
defaults for title and description. -/
def mkTask (tT : Nat) (tS : Nat → Nat) (now : Int) (i : Nat) (r : UpdateRec) : Task :=
  { id := mkTaskId tT i,
    title :=
      match r.title with
      | some s => if s = "" then "Untitled Task" else s
      | none => "Untitled Task",
    description :=
      match r.description with
      | some s => if s = "" then "No description provided." else s
      | none => "No description provided.",
    status := statusOf r.status,
    priority := priorityOf r.priority,
    createdAt := now,
    subtasks := buildSubs tS now i 0 (r.steps.getD []) }

/-- The guard `!toolData || !toolData.title || !Array.isArray(toolData.steps)`
(line 240), negated: an element of the update array survives the builder
exactly when this is true. -/
def validRec : Option UpdateRec → Bool
  | none => false
  | some r => strTruthy r.title && r.steps.isSome

/-- Fallback record used only to destructure an `Option` already known to be
`some`. -/
def recOrDefault (o : Option UpdateRec) : UpdateRec := o.getD {}

/-- The `updates.map((toolData, index) => ...)` followed by
`.filter(task => task !== null)` (lines 238-269), written as one recursion
carrying the running index: invalid elements map to `null` and are filtered
away, valid ones produce `mkTask`.  `tT i` and `tS i j` are the `Date.now()`
readings taken for record `i` and for step `j` of record `i`. -/
def buildAux (tT : Nat → Nat) (tS : Nat → Nat → Nat) (now : Int) :
    Nat → List (Option UpdateRec) → List Task
  | _, [] => []
  | i, o :: rest =>
    if validRec o then
      mkTask (tT i) (tS i) now i (recOrDefault o) :: buildAux tT tS now (i + 1) rest
    else buildAux tT tS now (i + 1) rest

/-- The full build pass of `fetchUpdates` over one update array. -/
def buildTasks (tT : Nat → Nat) (tS : Nat → Nat → Nat) (now : Int)
    (updates : List (Option UpdateRec)) : List Task :=
  buildAux tT tS now 0 updates

/-! ## Spec-side definitions

These follow the wording of the specification (not the source) and exist to
be compared with the source-derived definitions above. -/

/-- Spec wording: case-insensitive match of the record's priority against
the set of `high`, `medium`, `low`; unmatched or missing normalizes to
`medium`. -/
def specPriorityOf : Option String → Priority
  | none => Priority.medium
  | some s =>
    if s.toLower = "high" then Priority.high
    else if s.toLower = "medium" then Priority.medium
    else if s.toLower = "low" then Priority.low
    else Priority.medium

/-- Spec wording: case-insensitive match of a status against `completed` and
`in-progress`; unmatched or missing normalizes to `pending`. -/
def specStatusOf : Option String → Status
  | none => Status.pending
  | some s =>
    if s.toLower = "completed" then Status.completed
    else if s.toLower = "in-progress" then Status.inProgress
    else Status.pending

/-- Spec wording of the per-subtask window test: the subtask has a
`completedAt` and it satisfies the window comparison. -/
def specSubWindow (w : Window) (today : Int) (st : SubTask) : Prop :=
  ∃ c, st.completedAt = some c ∧
    match w with
    | Window.today => today ≤ c
    | Window.yesterday => today - 24 * 60 * 60 * 1000 ≤ c ∧ c < today
    | Window.week => today - 7 * (24 * 60 * 60 * 1000) ≤ c

/-- Spec wording of the createdAt window test, with the identical
comparisons. -/
def specCreatedWindow (w : Window) (today : Int) (task : Task) : Prop :=
  match w with
  | Window.today => today ≤ task.createdAt
  | Window.yesterday =>
      today - 24 * 60 * 60 * 1000 ≤ task.createdAt ∧ task.createdAt < today
  | Window.week => today - 7 * (24 * 60 * 60 * 1000) ≤ task.createdAt

/-! ## Sample data used by witnesses and counterexamples -/

/-- A pending subtask. -/
def sampleSub : SubTask := { id := "s1", title := "S", status := Status.pending }

/-- A task holding one pending subtask, whose own status was last set to
`completed` by a direct toggle. -/
def sampleTask : Task :=
  { id := "t1", title := "T", description := "D", status := Status.completed,
    priority := Priority.medium, createdAt := 0, subtasks := [sampleSub] }

/-- A task with zero subtasks whose status was last set to `pending`. -/
def emptyTask : Task :=
  { id := "t0", title := "E", description := "D", status := Status.pending,
    priority := Priority.low, createdAt := 0, subtasks := [] }

/-! ## Status aggregation -/

/-- Characterization of `derivedStatus` on a nonempty subtask list. -/
theorem derivedStatus_spec (subs : List SubTask) (hne : subs ≠ []) :
    (derivedStatus subs = Status.completed ↔
      ∀ st ∈ subs, st.status = Status.completed) ∧
    (derivedStatus subs = Status.pending ↔
      ∀ st ∈ subs, st.status ≠ Status.completed ∧ st.status ≠ Status.inProgress) ∧
    (derivedStatus subs = Status.inProgress ↔
      (¬ ∀ st ∈ subs, st.status = Status.completed) ∧
      ∃ st ∈ subs, st.status = Status.completed ∨ st.status = Status.inProgress) := by
  obtain ⟨st₀, hst₀⟩ := List.exists_mem_of_ne_nil subs hne
  have hcLen : (subs.filter fun st => st.status == Status.completed).length =
      subs.countP fun st => st.status == Status.completed :=
    (List.countP_eq_length_filter _ _).symm
  have hpLen : (subs.filter fun st => st.status == Status.inProgress).length =
      subs.countP fun st => st.status == Status.inProgress :=
    (List.countP_eq_length_filter _ _).symm
  by_cases hc :
      (subs.countP fun st => st.status == Status.completed) = subs.length
  · have hall : ∀ st ∈ subs, st.status = Status.completed := by
      have := List.countP_eq_length.mp hc
      intro st hst
      simpa using this st hst
    have hds : derivedStatus subs = Status.completed := by
      simp [derivedStatus, hcLen, hc]
    refine ⟨⟨fun _ => hall, fun _ => hds⟩, ?_, ?_⟩
    · constructor
      · intro h; rw [hds] at h; cases h
      · intro h
        exact absurd (hall st₀ hst₀) (h st₀ hst₀).1
    · constructor
      · intro h; rw [hds] at h; cases h
      · rintro ⟨hna, -⟩; exact absurd hall hna
  · by_cases hp :
        0 < (subs.countP fun st => st.status == Status.inProgress) ∨
        0 < (subs.countP fun st => st.status == Status.completed)
    · have hds : derivedStatus subs = Status.inProgress := by
        simp only [derivedStatus, hcLen, hpLen]
        rw [if_neg hc, if_pos hp]
      have hna : ¬ ∀ st ∈ subs, st.status = Status.completed := by
        intro hall
        exact hc (List.countP_eq_length.mpr fun st hst => by simp [hall st hst])
      have hex : ∃ st ∈ subs, st.status = Status.completed ∨
          st.status = Status.inProgress := by
        rcases hp with hp | hp
        · obtain ⟨st, hst, hkey⟩ := List.countP_pos_iff.mp hp
          exact ⟨st, hst, Or.inr (by simpa using hkey)⟩
        · obtain ⟨st, hst, hkey⟩ := List.countP_pos_iff.mp hp
          exact ⟨st, hst, Or.inl (by simpa using hkey)⟩
      refine ⟨?_, ?_, ⟨fun _ => ⟨hna, hex⟩, fun _ => hds⟩⟩
      · constructor
        · intro h; rw [hds] at h; cases h
        · intro hall; exact absurd hall hna
      · constructor
        · intro h; rw [hds] at h; cases h
        · intro h
          obtain ⟨st, hst, hor⟩ := hex
          rcases hor with h1 | h1
          · exact absurd h1 (h st hst).1
          · exact absurd h1 (h st hst).2
    · have hds : derivedStatus subs = Status.pending := by
        simp only [derivedStatus, hcLen, hpLen]
        rw [if_neg hc, if_neg hp]
      push_neg at hp
      have hcz : (subs.countP fun st => st.status == Status.completed) = 0 :=
        Nat.le_zero.mp hp.2
      have hpz : (subs.countP fun st => st.status == Status.inProgress) = 0 :=
        Nat.le_zero.mp hp.1
      have hnone : ∀ st ∈ subs,
          st.status ≠ Status.completed ∧ st.status ≠ Status.inProgress := by
        intro st hst
        have h1 := List.countP_eq_zero.mp hcz st hst
        have h2 := List.countP_eq_zero.mp hpz st hst
        constructor
        · simpa using h1
        · simpa using h2
      refine ⟨?_, ⟨fun _ => hnone, fun _ => hds⟩, ?_⟩
      · constructor
        · intro h; rw [hds] at h; cases h
        · intro hall
          exact absurd (hall st₀ hst₀) (hnone st₀ hst₀).1
      · constructor
        · intro h; rw [hds] at h; cases h
        · rintro ⟨-, st, hst, hor⟩
          rcases hor with h1 | h1
          · exact absurd h1 (hnone st hst).1
          · exact absurd h1 (hnone st hst).2

/-- Claim C1: after `updateSubtaskStatus` changes the status of a subtask of
a task with at least one subtask, the task's status is `completed` iff every
subtask is `completed`, `pending` iff no subtask is `completed` or
`in-progress`, and `in-progress` otherwise; and this derived value is
assigned regardless of the status the task held immediately before the call,
including one set by a direct manual toggle. -/
theorem c1_status_derivation
    (tasks : List Task) (tid sid : String) (ns : Status) (now : Int)
    (i : Nat) (t : Task)
    (ht : tasks[i]? = some t) (hid : t.id = tid)
    (hsub : ∃ st ∈ t.subtasks, st.id = sid) :
    ∃ t', (updateSubtaskStatus tasks tid sid ns now)[i]? = some t' ∧
      ((t'.status = Status.completed ↔
         ∀ st ∈ t'.subtasks, st.status = Status.completed) ∧
       (t'.status = Status.pending ↔
         ∀ st ∈ t'.subtasks,
           st.status ≠ Status.completed ∧ st.status ≠ Status.inProgress) ∧
       (t'.status = Status.inProgress ↔
         (¬ ∀ st ∈ t'.subtasks, st.status = Status.completed) ∧
         ∃ st ∈ t'.subtasks,
           st.status = Status.completed ∨ st.status = Status.inProgress)) ∧
      (∀ s₀, ∃ t'',
        (updateSubtaskStatus (tasks.set i { t with status := s₀ })
            tid sid ns now)[i]? = some t'' ∧
        t''.status = t'.status) := by
  have hne : t.subtasks ≠ [] := by
    obtain ⟨st, hst, -⟩ := hsub
    exact List.ne_nil_of_mem hst
  have hune : updatedSubtasksOf t.subtasks sid ns now ≠ [] := by
    intro h
    exact hne (List.map_eq_nil_iff.mp h)
  have hlen : i < tasks.length := by
    have := List.getElem?_eq_some_iff.mp ht
    exact this.1
  refine ⟨{ t with
      subtasks := updatedSubtasksOf t.subtasks sid ns now,
      status := derivedStatus (updatedSubtasksOf t.subtasks sid ns now) },
    ?_, ?_, ?_⟩
  · simp [updateSubtaskStatus, updateTaskForSubtask, ht, hid]
  · exact derivedStatus_spec _ hune
  · intro s₀
    refine ⟨{ t with
        subtasks := updatedSubtasksOf t.subtasks sid ns now,
        status := derivedStatus (updatedSubtasksOf t.subtasks sid ns now) },
      ?_, rfl⟩
    have hset : (tasks.set i { t with status := s₀ })[i]? =
        some { t with status := s₀ } := List.getElem?_set_self (by simpa using hlen)
    simp [updateSubtaskStatus, updateTaskForSubtask, hset, hid, hlen]

/-- Witness for C1 at a concrete input: a task with one pending subtask whose
own status had been manually toggled to `completed`. -/
theorem c1_status_derivation_witness :
    ∃ t', (updateSubtaskStatus [sampleTask] "t1" "s1" Status.inProgress 5)[0]? = some t' ∧
      ((t'.status = Status.completed ↔
         ∀ st ∈ t'.subtasks, st.status = Status.completed) ∧
       (t'.status = Status.pending ↔
         ∀ st ∈ t'.subtasks,
           st.status ≠ Status.completed ∧ st.status ≠ Status.inProgress) ∧
       (t'.status = Status.inProgress ↔
         (¬ ∀ st ∈ t'.subtasks, st.status = Status.completed) ∧
         ∃ st ∈ t'.subtasks,
           st.status = Status.completed ∨ st.status = Status.inProgress)) ∧
      (∀ s₀, ∃ t'',
        (updateSubtaskStatus ([sampleTask].set 0 { sampleTask with status := s₀ })
            "t1" "s1" Status.inProgress 5)[0]? = some t'' ∧
        t''.status = t'.status) :=
  c1_status_derivation [sampleTask] "t1" "s1" Status.inProgress 5 0 sampleTask
    (by rfl) (by rfl) ⟨sampleSub, by simp [sampleTask], by rfl⟩

/-- Counterexample to claim C2: for a task with zero subtasks, a call to
`updateSubtaskStatus` addressed at it does not leave the status that was last
set directly (here `pending`); it sets the status to `completed`, because the
all-subtasks-completed count check `0 === 0` passes vacuously. -/
theorem c2_counterexample :
    emptyTask.subtasks = [] ∧ emptyTask.status = Status.pending ∧
    (updateSubtaskStatus [emptyTask] "t0" "s9" Status.pending 0).map Task.status =
      [Status.completed] := by decide

/-- Claim C2 amended: for a task with zero subtasks, `updateSubtaskStatus`
addressed at it (with any subtask id) always sets the task's status to
`completed` — the derivation is not vacuous at zero subtasks, because the
check `completedSubtasks === updatedSubtasks.length` holds at `0 === 0`. -/
theorem c2_amended (tasks : List Task) (tid sid : String) (ns : Status) (now : Int)
    (i : Nat) (t : Task) (ht : tasks[i]? = some t) (hid : t.id = tid)
    (h0 : t.subtasks = []) :
    ∃ t', (updateSubtaskStatus tasks tid sid ns now)[i]? = some t' ∧
      t'.status = Status.completed ∧ t'.subtasks = [] := by
  refine ⟨{ t with
      subtasks := updatedSubtasksOf t.subtasks sid ns now,
      status := derivedStatus (updatedSubtasksOf t.subtasks sid ns now) },
    ?_, ?_, ?_⟩
  · simp [updateSubtaskStatus, updateTaskForSubtask, ht, hid]
  · simp [derivedStatus, updatedSubtasksOf, h0]
  · simp [updatedSubtasksOf, h0]

/-- Witness for the amended C2 at a concrete input. -/
theorem c2_amended_witness :
    ∃ t', (updateSubtaskStatus [emptyTask] "t0" "s9" Status.inProgress 3)[0]? = some t' ∧
      t'.status = Status.completed ∧ t'.subtasks = [] :=
  c2_amended [emptyTask] "t0" "s9" Status.inProgress 3 0 emptyTask
    (by rfl) (by rfl) (by rfl)

/-- Claim C10: when the active tab is `updates`, the computed filtered view
is the entire task collection unchanged, for every selected time window. -/
theorem c10_updates_tab_unfiltered (w : Window) (today : Int) (tasks : List Task) :
    filteredTasks Tab.updates w today tasks = tasks := by
  simp [filteredTasks]

/-! ## completedAt consistency (claim C3) -/

/-- The completedAt invariant the spec states for SubTasks. -/
def subInv (st : SubTask) : Prop :=
  st.completedAt.isSome = true ↔ st.status = Status.completed

instance (st : SubTask) : Decidable (subInv st) := by
  unfold subInv
  infer_instance

/-- Helper: a map that fixes every element of a list leaves it unchanged. -/
theorem map_id_of_mem {α : Type} (f : α → α) (l : List α)
    (h : ∀ a ∈ l, f a = a) : l.map f = l := by
  induction l with
  | nil => rfl
  | cons a l ih =>
    simp only [List.map_cons, h a (by simp)]
    rw [ih fun b hb => h b (by simp [hb])]

/-- Every subtask produced by the builder satisfies the invariant: its
`completedAt` and its status are computed from the same lowercased key. -/
theorem mkSubTask_inv (tS : Nat → Nat) (now : Int) (i j : Nat) (s : StepRec) :
    subInv (mkSubTask tS now i j s) := by
  by_cases hk : statusKeyOf s.status = "completed"
  · simp [subInv, mkSubTask, subCompletedAt, statusOf, hk]
  · by_cases hk2 : statusKeyOf s.status = "in-progress"
    · simp [subInv, mkSubTask, subCompletedAt, statusOf, hk, hk2]
    · simp [subInv, mkSubTask, subCompletedAt, statusOf, hk, hk2]

/-- Invariant for all subtasks out of `buildSubs`. -/
theorem buildSubs_inv (tS : Nat → Nat) (now : Int) (i : Nat) :
    ∀ (j : Nat) (steps : List StepRec),
      ∀ st ∈ buildSubs tS now i j steps, subInv st := by
  intro j steps
  induction steps generalizing j with
  | nil => intro st hst; cases hst
  | cons s rest ih =>
    intro st hst
    rw [buildSubs] at hst
    rcases List.mem_cons.mp hst with hst | hst
    · subst hst
      exact mkSubTask_inv tS now i j s
    · exact ih (j + 1) st hst

/-- Invariant for all subtasks of all tasks out of a build pass. -/
theorem buildAux_inv (tT : Nat → Nat) (tS : Nat → Nat → Nat) (now : Int) :
    ∀ (i : Nat) (l : List (Option UpdateRec)),
      ∀ t ∈ buildAux tT tS now i l, ∀ st ∈ t.subtasks, subInv st := by
  intro i l
  induction l generalizing i with
  | nil => intro t ht; cases ht
  | cons o rest ih =>
    intro t ht st hst
    by_cases hv : validRec o = true
    · rw [buildAux, if_pos hv] at ht
      rcases List.mem_cons.mp ht with ht | ht
      · subst ht
        simp only [mkTask] at hst
        exact buildSubs_inv (tS i) now i 0 _ st hst
      · exact ih (i + 1) t ht st hst
    · rw [buildAux, if_neg hv] at ht
      exact ih (i + 1) t ht st hst

/-- Counterexample to claim C3: a directly-toggled Task entering `completed`
has no `completedAt` at all — the `Task` interface declares no such field and
`updateTaskStatus` sets none — so `completedAt` is undefined while the status
is `completed`. -/
theorem c3_counterexample :
    (updateTaskStatus [emptyTask] "t0" Status.completed).map
        (fun t => (t.status, t.completedAt)) =
      [(Status.completed, (none : Option Int))] := by decide

/-- `updatedSubtasksOf` preserves the invariant: the touched subtask gets a
consistent `status`/`completedAt` pair, the others are unchanged. -/
theorem updatedSubtasksOf_inv (sid : String) (ns : Status) (now : Int) :
    ∀ subs : List SubTask, (∀ st ∈ subs, subInv st) →
      ∀ st ∈ updatedSubtasksOf subs sid ns now, subInv st := by
  intro subs
  induction subs with
  | nil => intro _ st hst; cases hst
  | cons a l ih =>
    intro h st hst
    simp only [updatedSubtasksOf, List.map_cons] at hst
    rcases List.mem_cons.mp hst with hst | hst
    · by_cases ha : a.id = sid
      · rw [setSubtask, if_pos ha] at hst
        subst hst
        by_cases hns : ns = Status.completed
        · simp [subInv, hns]
        · simp [subInv, hns]
      · rw [setSubtask, if_neg ha] at hst
        subst hst
        exact h _ (List.mem_cons_self _ _)
    · exact ih (fun st' hst' => h st' (by simp [hst'])) st hst

/-- `updateSubtaskStatus` preserves the subtask invariant. -/
theorem updateSubtaskStatus_inv (tid sid : String) (ns : Status) (now : Int) :
    ∀ tasks : List Task, (∀ t ∈ tasks, ∀ st ∈ t.subtasks, subInv st) →
      ∀ t ∈ updateSubtaskStatus tasks tid sid ns now,
        ∀ st ∈ t.subtasks, subInv st := by
  intro tasks
  induction tasks with
  | nil => intro _ t ht; cases ht
  | cons a l ih =>
    intro hinv t ht
    simp only [updateSubtaskStatus, List.map_cons] at ht
    rcases List.mem_cons.mp ht with ht | ht
    · by_cases ha : a.id = tid
      · rw [updateTaskForSubtask, if_pos ha] at ht
        subst ht
        intro st hst
        exact updatedSubtasksOf_inv sid ns now a.subtasks (hinv a (by simp)) st hst
      · rw [updateTaskForSubtask, if_neg ha] at ht
        subst ht
        exact hinv _ (List.mem_cons_self _ _)
    · exact ih (fun t' ht' => hinv t' (by simp [ht'])) t ht

/-- `updateTaskStatus` preserves the subtask invariant (it never touches
subtasks). -/
theorem updateTaskStatus_inv (tid : String) (ns : Status) :
    ∀ tasks : List Task, (∀ t ∈ tasks, ∀ st ∈ t.subtasks, subInv st) →
      ∀ t ∈ updateTaskStatus tasks tid ns, ∀ st ∈ t.subtasks, subInv st := by
  intro tasks
  induction tasks with
  | nil => intro _ t ht; cases ht
  | cons a l ih =>
    intro hinv t ht
    simp only [updateTaskStatus, List.map_cons] at ht
    rcases List.mem_cons.mp ht with ht | ht
    · by_cases ha : a.id = tid
      · rw [setTaskStatus, if_pos ha] at ht
        subst ht
        exact hinv a (by simp)
      · rw [setTaskStatus, if_neg ha] at ht
        subst ht
        exact hinv _ (List.mem_cons_self _ _)
    · exact ih (fun t' ht' => hinv t' (by simp [ht'])) t ht

/-- Claim C3 amended: the completedAt-iff-completed invariant holds for every
SubTask after a build (`buildTasks`), after `updateSubtaskStatus`, and after
`updateTaskStatus`; directly-toggled Tasks, however, carry no `completedAt`
field at all, so the iff fails for a Task toggled into `completed`. -/
theorem c3_amended (tasks : List Task) (tid sid tid2 : String) (ns ns2 : Status)
    (now : Int) (tT : Nat → Nat) (tS : Nat → Nat → Nat) (bnow : Int)
    (updates : List (Option UpdateRec))
    (hinv : ∀ t ∈ tasks, ∀ st ∈ t.subtasks, subInv st) :
    (∀ t ∈ updateSubtaskStatus tasks tid sid ns now, ∀ st ∈ t.subtasks, subInv st) ∧
    (∀ t ∈ updateTaskStatus tasks tid2 ns2, ∀ st ∈ t.subtasks, subInv st) ∧
    (∀ t ∈ buildTasks tT tS bnow updates, ∀ st ∈ t.subtasks, subInv st) :=
  ⟨updateSubtaskStatus_inv tid sid ns now tasks hinv,
   updateTaskStatus_inv tid2 ns2 tasks hinv,
   fun t ht st hst => buildAux_inv tT tS bnow 0 updates t ht st hst⟩

/-- Witness for the amended C3 at a concrete input. -/
theorem c3_amended_witness :
    (∀ t ∈ updateSubtaskStatus [sampleTask] "t1" "s1" Status.completed 4,
      ∀ st ∈ t.subtasks, subInv st) ∧
    (∀ t ∈ updateTaskStatus [sampleTask] "t1" Status.completed,
      ∀ st ∈ t.subtasks, subInv st) ∧
    (∀ t ∈ buildTasks (fun _ => 0) (fun _ _ => 0) 0
        [some { title := some "T", steps := some [{ status := some "Completed" }] }],
      ∀ st ∈ t.subtasks, subInv st) :=
  c3_amended [sampleTask] "t1" "s1" "t1" Status.completed Status.completed 4
    (fun _ => 0) (fun _ _ => 0) 0
    [some { title := some "T", steps := some [{ status := some "Completed" }] }]
    (by decide)

/-! ## Unknown identifiers (claim C4) -/

/-- Counterexample to claim C4: `updateSubtaskStatus` with a known task id
but an unknown subtask id is not a no-op — the subtasks are unchanged, yet
the parent status is re-derived, here demoting a manually-completed task. -/
theorem c4_counterexample :
    (∀ st ∈ sampleTask.subtasks, st.id ≠ "zz") ∧
    updateSubtaskStatus [sampleTask] "t1" "zz" Status.completed 0 ≠ [sampleTask] := by
  decide

/-- Claim C4 amended: a toggle addressed at an unknown task id is a no-op for
both `updateTaskStatus` and `updateSubtaskStatus` (the collection is returned
unchanged, and in this total embedding no exception can be raised); but
`updateSubtaskStatus` with a known task id and an unknown subtask id leaves
the subtasks unchanged while still reassigning the matched task's status to
the value derived from its (unchanged) subtasks. -/
theorem c4_amended (tasks : List Task) (tid sid : String) (ns : Status) (now : Int) :
    ((∀ t ∈ tasks, t.id ≠ tid) →
      updateTaskStatus tasks tid ns = tasks ∧
      updateSubtaskStatus tasks tid sid ns now = tasks) ∧
    (∀ (i : Nat) (t : Task), tasks[i]? = some t → t.id = tid →
      (∀ st ∈ t.subtasks, st.id ≠ sid) →
      (updateSubtaskStatus tasks tid sid ns now)[i]? =
        some { t with status := derivedStatus t.subtasks }) := by
  constructor
  · intro h
    constructor
    · apply map_id_of_mem
      intro t ht
      simp [setTaskStatus, h t ht]
    · apply map_id_of_mem
      intro t ht
      simp [updateTaskForSubtask, h t ht]
  · intro i t ht hid hst
    have hsubs : updatedSubtasksOf t.subtasks sid ns now = t.subtasks := by
      apply map_id_of_mem
      intro st hstm
      simp [setSubtask, hst st hstm]
    simp [updateSubtaskStatus, updateTaskForSubtask, ht, hid, hsubs]

/-- Witness for the amended C4 at concrete inputs. -/
theorem c4_amended_witness :
    (updateTaskStatus [sampleTask] "nope" Status.pending = [sampleTask] ∧
      updateSubtaskStatus [sampleTask] "nope" "s1" Status.pending 7 = [sampleTask]) ∧
    (updateSubtaskStatus [sampleTask] "t1" "zz" Status.pending 7)[0]? =
      some { sampleTask with status := derivedStatus sampleTask.subtasks } := by
  have h := c4_amended [sampleTask] "nope" "s1" Status.pending 7
  have h2 := c4_amended [sampleTask] "t1" "zz" Status.pending 7
  exact ⟨h.1 (by decide), h2.2 0 sampleTask (by rfl) (by rfl) (by decide)⟩

/-! ## Time-window filter (claim C5) -/

/-- The source's per-subtask window test agrees with the spec's wording. -/
theorem subtaskActiveIn_iff (w : Window) (today : Int) (st : SubTask) :
    subtaskActiveIn w today st = true ↔ specSubWindow w today st := by
  cases h : st.completedAt with
  | none => cases w <;> simp [subtaskActiveIn, specSubWindow, h]
  | some c => cases w <;> simp [subtaskActiveIn, specSubWindow, h, msPerDay]

/-- The source's createdAt window test agrees with the spec's wording. -/
theorem createdIn_iff (w : Window) (today : Int) (t : Task) :
    createdIn w today t.createdAt = true ↔ specCreatedWindow w today t := by
  cases w <;> simp [createdIn, specCreatedWindow, msPerDay]

/-- Claim C5: on a non-updates tab, the time-window filter includes a task
exactly when some subtask's `completedAt` satisfies the window comparison or
the task's own `createdAt` satisfies the identical comparison. -/
theorem c5_time_window_filter (tab : Tab) (w : Window) (today : Int)
    (tasks : List Task) (t : Task) (h : tab ≠ Tab.updates) :
    t ∈ filteredTasks tab w today tasks ↔
      t ∈ tasks ∧
        ((∃ st ∈ t.subtasks, specSubWindow w today st) ∨
         specCreatedWindow w today t) := by
  rw [filteredTasks, if_neg h, List.mem_filter]
  constructor
  · rintro ⟨hmem, hmatch⟩
    refine ⟨hmem, ?_⟩
    rw [taskMatchesWindow, Bool.or_eq_true] at hmatch
    rcases hmatch with hmatch | hmatch
    · left
      obtain ⟨st, hst, hact⟩ := List.any_eq_true.mp hmatch
      exact ⟨st, hst, (subtaskActiveIn_iff w today st).mp hact⟩
    · right
      exact (createdIn_iff w today t).mp hmatch
  · rintro ⟨hmem, hcrit⟩
    refine ⟨hmem, ?_⟩
    rw [taskMatchesWindow, Bool.or_eq_true]
    rcases hcrit with ⟨st, hst, hspec⟩ | hspec
    · exact Or.inl (List.any_eq_true.mpr
        ⟨st, hst, (subtaskActiveIn_iff w today st).mpr hspec⟩)
    · exact Or.inr ((createdIn_iff w today t).mpr hspec)

/-- Witness for C5 at a concrete input. -/
theorem c5_time_window_filter_witness :
    sampleTask ∈ filteredTasks Tab.chat Window.today 0 [sampleTask] ↔
      sampleTask ∈ [sampleTask] ∧
        ((∃ st ∈ sampleTask.subtasks, specSubWindow Window.today 0 st) ∨
         specCreatedWindow Window.today 0 sampleTask) :=
  c5_time_window_filter Tab.chat Window.today 0 [sampleTask] sampleTask (by decide)

/-! ## Manual toggle cycle (claim C6) -/

/-- `find?` commutes with mapping a function that does not change the tested
property. -/
theorem find?_map_pres {α : Type} (f : α → α) (p : α → Bool) (l : List α)
    (h : ∀ a, p (f a) = p a) : (l.map f).find? p = (l.find? p).map f := by
  induction l with
  | nil => rfl
  | cons a l ih =>
    by_cases hp : p a = true
    · rw [List.map_cons, List.find?_cons_of_pos _ (by rw [h]; exact hp),
        List.find?_cons_of_pos _ hp]
      rfl
    · rw [List.map_cons, List.find?_cons_of_neg _ (by rw [h a]; simpa using hp),
        List.find?_cons_of_neg _ (by simpa using hp), ih]

/-- `setTaskStatus` never changes a task's id. -/
theorem setTaskStatus_id (tid : String) (ns : Status) (task : Task) :
    (setTaskStatus tid ns task).id = task.id := by
  rw [setTaskStatus]
  split <;> rfl

/-- `updateTaskForSubtask` never changes a task's id. -/
theorem updateTaskForSubtask_id (tid sid : String) (ns : Status) (now : Int)
    (task : Task) : (updateTaskForSubtask tid sid ns now task).id = task.id := by
  rw [updateTaskForSubtask]
  split <;> rfl

/-- `setSubtask` never changes a subtask's id. -/
theorem setSubtask_id (sid : String) (ns : Status) (now : Int) (st : SubTask) :
    (setSubtask sid ns now st).id = st.id := by
  rw [setSubtask]
  split <;> rfl

/-- After `updateSubtaskStatus`, the looked-up subtask status is the new
status, whenever the lookup succeeded before the call. -/
theorem getSubtaskStatus_update (tasks : List Task) (tid sid : String)
    (ns : Status) (now : Int) (s : Status)
    (h : getSubtaskStatus tasks tid sid = some s) :
    getSubtaskStatus (updateSubtaskStatus tasks tid sid ns now) tid sid = some ns := by
  rw [getSubtaskStatus] at h
  rcases hfind : tasks.find? (fun task => task.id == tid) with _ | t
  · rw [hfind] at h
    simp at h
  · rw [hfind] at h
    rcases hsub : t.subtasks.find? (fun st => st.id == sid) with _ | st
    · simp [hsub] at h
    · have hidt : t.id = tid := by simpa using List.find?_some hfind
      have hsid : st.id = sid := by simpa using List.find?_some hsub
      rw [getSubtaskStatus, updateSubtaskStatus,
        find?_map_pres _ _ _ (fun a => by rw [updateTaskForSubtask_id]), hfind]
      show (((updateTaskForSubtask tid sid ns now t).subtasks.find?
          fun st => st.id == sid).map SubTask.status) = some ns
      rw [updateTaskForSubtask, if_pos hidt]
      show (((updatedSubtasksOf t.subtasks sid ns now).find?
          fun st => st.id == sid).map SubTask.status) = some ns
      rw [updatedSubtasksOf,
        find?_map_pres _ _ _ (fun a => by rw [setSubtask_id]), hsub]
      simp [setSubtask, hsid]

/-- After `updateTaskStatus`, the looked-up task status is the new status,
whenever the task was found. -/
theorem getTaskStatus_update (tasks : List Task) (tid : String) (ns : Status)
    (t : Task) (hfind : tasks.find? (fun task => task.id == tid) = some t) :
    getTaskStatus (updateTaskStatus tasks tid ns) tid = some ns := by
  have hidt : t.id = tid := by simpa using List.find?_some hfind
  rw [getTaskStatus, updateTaskStatus,
    find?_map_pres _ _ _ (fun a => by rw [setTaskStatus_id]), hfind]
  simp [setTaskStatus, hidt]

/-- One subtask toggle advances the looked-up status one step along the
cycle. -/
theorem toggleSubtask_step (tasks : List Task) (tid sid : String) (now : Int)
    (s : Status) (h : getSubtaskStatus tasks tid sid = some s) :
    getSubtaskStatus (toggleSubtask tasks tid sid now) tid sid =
      some (nextStatus s) := by
  unfold toggleSubtask
  rw [h]
  exact getSubtaskStatus_update tasks tid sid (nextStatus s) now s h

/-- One task toggle advances the looked-up status one step along the cycle. -/
theorem toggleTask_step (tasks : List Task) (tid : String) (s : Status)
    (h : getTaskStatus tasks tid = some s) :
    getTaskStatus (toggleTask tasks tid) tid = some (nextStatus s) := by
  have hex : ∃ t, tasks.find? (fun task => task.id == tid) = some t := by
    rw [getTaskStatus] at h
    rcases hf : tasks.find? (fun task => task.id == tid) with _ | t
    · rw [hf] at h
      simp at h
    · exact ⟨t, hf⟩
  obtain ⟨t, hf⟩ := hex
  unfold toggleTask
  rw [h]
  exact getTaskStatus_update tasks tid (nextStatus s) t hf

/-- Claim C6: a manual toggle moves a status one step along the fixed cycle
pending, in-progress, completed, pending; a subtask toggle advances the
subtask's looked-up status by one step, three successive subtask toggles
return it to the original status, and a direct task toggle advances the
task's status by one step of the same cycle. -/
theorem c6_toggle_cycle :
    (nextStatus Status.pending = Status.inProgress ∧
     nextStatus Status.inProgress = Status.completed ∧
     nextStatus Status.completed = Status.pending) ∧
    (∀ s : Status, nextStatus (nextStatus (nextStatus s)) = s) ∧
    (∀ (tasks : List Task) (tid sid : String) (now : Int) (s : Status),
      getSubtaskStatus tasks tid sid = some s →
      getSubtaskStatus (toggleSubtask tasks tid sid now) tid sid =
        some (nextStatus s)) ∧
    (∀ (tasks : List Task) (tid sid : String) (n₁ n₂ n₃ : Int) (s : Status),
      getSubtaskStatus tasks tid sid = some s →
      getSubtaskStatus
        (toggleSubtask (toggleSubtask (toggleSubtask tasks tid sid n₁)
          tid sid n₂) tid sid n₃) tid sid = some s) ∧
    (∀ (tasks : List Task) (tid : String) (s : Status),
      getTaskStatus tasks tid = some s →
      getTaskStatus (toggleTask tasks tid) tid = some (nextStatus s)) := by
  refine ⟨⟨rfl, rfl, rfl⟩, ?_, ?_, ?_, ?_⟩
  · intro s
    cases s <;> rfl
  · intro tasks tid sid now s h
    exact toggleSubtask_step tasks tid sid now s h
  · intro tasks tid sid n₁ n₂ n₃ s h
    have h1 := toggleSubtask_step tasks tid sid n₁ s h
    have h2 := toggleSubtask_step _ tid sid n₂ _ h1
    have h3 := toggleSubtask_step _ tid sid n₃ _ h2
    rw [h3]
    cases s <;> rfl
  · intro tasks tid s h
    exact toggleTask_step tasks tid s h

/-- Witness for C6 at a concrete input. -/
theorem c6_toggle_cycle_witness :
    getSubtaskStatus
        (toggleSubtask (toggleSubtask (toggleSubtask [sampleTask] "t1" "s1" 1)
          "t1" "s1" 2) "t1" "s1" 3) "t1" "s1" = some Status.pending ∧
    getTaskStatus (toggleTask [sampleTask] "t1") "t1" =
      some (nextStatus Status.completed) :=
  ⟨c6_toggle_cycle.2.2.2.1 [sampleTask] "t1" "s1" 1 2 3 Status.pending (by decide),
   c6_toggle_cycle.2.2.2.2 [sampleTask] "t1" Status.completed (by decide)⟩

/-! ## Builder normalization (claims C7, C8) -/

/-- `toLower` maps the character list (usable where the kernel cannot reduce
`String.mapAux`). -/
theorem toLower_data (s : String) :
    s.toLower = String.mk (s.data.map Char.toLower) :=
  String.map_eq Char.toLower s

/-- The empty string lowercases to itself. -/
theorem toLower_empty : ("" : String).toLower = "" := by
  rw [toLower_data]
  rfl

/-- The source's priority computation equals the spec's case-insensitive
match. -/
theorem priorityOf_eq_spec (o : Option String) : priorityOf o = specPriorityOf o := by
  cases o with
  | none => decide
  | some s =>
    by_cases hs : s = ""
    · subst hs
      simp [priorityOf, priorityKeyOf, specPriorityOf, toLower_empty]
    · simp only [priorityOf, priorityKeyOf, specPriorityOf, if_neg hs]
      by_cases h1 : s.toLower = "high"
      · simp [h1]
      · by_cases h2 : s.toLower = "medium"
        · simp [h1, h2]
        · by_cases h3 : s.toLower = "low"
          · simp [h1, h2, h3]
          · simp [h1, h2, h3]

/-- The source's status computation equals the spec's case-insensitive
match. -/
theorem statusOf_eq_spec (o : Option String) : statusOf o = specStatusOf o := by
  cases o with
  | none => decide
  | some s =>
    by_cases hs : s = ""
    · subst hs
      simp [statusOf, statusKeyOf, specStatusOf, toLower_empty]
    · simp only [statusOf, statusKeyOf, specStatusOf, if_neg hs]

/-- Indexing into the built subtask list. -/
theorem buildSubs_getElem? (tS : Nat → Nat) (now : Int) (i : Nat) :
    ∀ (steps : List StepRec) (j k : Nat),
      (buildSubs tS now i j steps)[k]? =
        (steps[k]?).map (mkSubTask tS now i (j + k)) := by
  intro steps
  induction steps with
  | nil =>
    intro j k
    simp [buildSubs]
  | cons s rest ih =>
    intro j k
    cases k with
    | zero => simp [buildSubs]
    | succ k =>
      rw [buildSubs]
      simp only [List.getElem?_cons_succ]
      rw [ih (j + 1) k]
      have harith : j + 1 + k = j + (k + 1) := by omega
      rw [harith]

/-- Claim C7: for a record accepted by the builder, the task's priority is
the case-insensitive match against high/medium/low defaulting to medium, the
task's and each subtask's status is the case-insensitive match against
completed/in-progress defaulting to pending, and a step without a `step`
field is titled "Step {i+1}" for zero-based position i. -/
theorem c7_builder_normalization (tT : Nat) (tS : Nat → Nat) (now : Int)
    (i : Nat) (r : UpdateRec) (_hv : validRec (some r) = true) :
    (mkTask tT tS now i r).priority = specPriorityOf r.priority ∧
    (mkTask tT tS now i r).status = specStatusOf r.status ∧
    (∀ (j : Nat) (stp : StepRec), (r.steps.getD [])[j]? = some stp →
      ∃ st, (mkTask tT tS now i r).subtasks[j]? = some st ∧
        st.status = specStatusOf stp.status ∧
        (stp.step = none → st.title = "Step " ++ natStr (j + 1))) := by
  refine ⟨priorityOf_eq_spec r.priority, statusOf_eq_spec r.status, ?_⟩
  intro j stp hstp
  refine ⟨mkSubTask tS now i j stp, ?_, statusOf_eq_spec stp.status, ?_⟩
  · show (buildSubs tS now i 0 (r.steps.getD []))[j]? = _
    rw [buildSubs_getElem? tS now i (r.steps.getD []) 0 j, hstp]
    simp
  · intro hnone
    show (mkSubTask tS now i j stp).title = _
    rw [mkSubTask]
    simp [hnone]

/-- Witness for C7 at a concrete record. -/
theorem c7_builder_normalization_witness :
    (mkTask 9 (fun _ => 3) 0 0
        { title := some "T", priority := some "HIGH",
          status := some "In-Progress",
          steps := some [{ status := some "Completed" }] }).priority =
      specPriorityOf (some "HIGH") ∧
    (mkTask 9 (fun _ => 3) 0 0
        { title := some "T", priority := some "HIGH",
          status := some "In-Progress",
          steps := some [{ status := some "Completed" }] }).status =
      specStatusOf (some "In-Progress") ∧
    (∀ (j : Nat) (stp : StepRec),
      ((some [({ status := some "Completed" } : StepRec)]).getD [])[j]? = some stp →
      ∃ st, (mkTask 9 (fun _ => 3) 0 0
          { title := some "T", priority := some "HIGH",
            status := some "In-Progress",
            steps := some [{ status := some "Completed" }] }).subtasks[j]? = some st ∧
        st.status = specStatusOf stp.status ∧
        (stp.step = none → st.title = "Step " ++ natStr (j + 1))) :=
  c7_builder_normalization 9 (fun _ => 3) 0 0
    { title := some "T", priority := some "HIGH", status := some "In-Progress",
      steps := some [{ status := some "Completed" }] } (by decide)

/-- One build pass as an indexed filter-map over the update array. -/
theorem buildAux_enum (tT : Nat → Nat) (tS : Nat → Nat → Nat) (now : Int) :
    ∀ (l : List (Option UpdateRec)) (i : Nat),
      buildAux tT tS now i l =
        ((l.enumFrom i).filter fun p => validRec p.2).map
          fun p => mkTask (tT p.1) (tS p.1) now p.1 (recOrDefault p.2) := by
  intro l
  induction l with
  | nil => intro i; rfl
  | cons o rest ih =>
    intro i
    rw [buildAux]
    by_cases hv : validRec o = true
    · rw [if_pos hv]
      simp [List.enumFrom_cons, List.filter_cons, hv, ih (i + 1)]
    · rw [if_neg hv]
      simp only [Bool.not_eq_true] at hv
      simp [List.enumFrom_cons, List.filter_cons, hv, ih (i + 1)]

/-- Claim C8: a record with a missing title or a steps field that is not an
array is invalid; an invalid element is dropped silently and does not abort
processing of the rest (in this total embedding nothing can be raised); and
the built collection is exactly one task per valid record, in source order. -/
theorem c8_invalid_records_dropped (tT : Nat → Nat) (tS : Nat → Nat → Nat)
    (now : Int) (updates : List (Option UpdateRec)) :
    (∀ r : UpdateRec, r.title = none ∨ r.steps = none →
      validRec (some r) = false) ∧
    (∀ (i : Nat) (o : Option UpdateRec) (rest : List (Option UpdateRec)),
      validRec o = false →
      buildAux tT tS now i (o :: rest) = buildAux tT tS now (i + 1) rest) ∧
    buildTasks tT tS now updates =
      ((updates.enum.filter fun p => validRec p.2).map
        fun p => mkTask (tT p.1) (tS p.1) now p.1 (recOrDefault p.2)) := by
  refine ⟨?_, ?_, ?_⟩
  · rintro r (h | h) <;> simp [validRec, strTruthy, h]
  · intro i o rest hv
    rw [buildAux, if_neg (by simp [hv])]
  · rw [buildTasks, buildAux_enum]
    rfl

/-- Witness for C8 at concrete inputs. -/
theorem c8_invalid_records_dropped_witness :
    validRec (some ({ steps := some [] } : UpdateRec)) = false ∧
    buildAux (fun _ => 0) (fun _ _ => 0) 0 0 [(none : Option UpdateRec)] =
      buildAux (fun _ => 0) (fun _ _ => 0) 0 1 [] := by
  have h := c8_invalid_records_dropped (fun _ => 0) (fun _ _ => 0) 0 []
  exact ⟨h.1 { steps := some [] } (Or.inl rfl), h.2.1 0 none [] (by decide)⟩

/-! ## Identifier uniqueness (claim C9)

The generated ids are decimal strings joined by dashes.  Their pairwise
distinctness rests on: decimal digits are never the dash character, decimal
rendering is injective, and a dash-join of dash-free components determines
the components. -/

/-- Digits below ten never render as the dash character. -/
theorem digitChar_ne_dash : ∀ d : Nat, d < 10 → Nat.digitChar d ≠ '-' := by
  decide

/-- Decimal digit rendering is injective below ten. -/
theorem digitChar_inj :
    ∀ d₁ : Nat, d₁ < 10 → ∀ d₂ : Nat, d₂ < 10 →
      Nat.digitChar d₁ = Nat.digitChar d₂ → d₁ = d₂ := by
  decide

/-- No character of a decimal rendering is a dash. -/
theorem decRepr_ne_dash (n : Nat) : ∀ c ∈ decRepr n, c ≠ '-' := by
  intro c hc
  rw [decRepr] at hc
  by_cases hn : n = 0
  · rw [if_pos hn] at hc
    simp only [List.mem_singleton] at hc
    subst hc
    decide
  · rw [if_neg hn] at hc
    rw [List.mem_reverse] at hc
    obtain ⟨d, hd, rfl⟩ := List.mem_map.mp hc
    exact digitChar_ne_dash d (Nat.digits_lt_base (by norm_num) hd)

/-- The dash is not a character of a decimal rendering. -/
theorem dash_not_mem_decRepr (n : Nat) : '-' ∉ decRepr n :=
  fun hm => decRepr_ne_dash n '-' hm rfl

/-- Mapping `digitChar` over digit lists is injective. -/
theorem map_digitChar_inj :
    ∀ l₁ l₂ : List Nat, (∀ d ∈ l₁, d < 10) → (∀ d ∈ l₂, d < 10) →
      l₁.map Nat.digitChar = l₂.map Nat.digitChar → l₁ = l₂ := by
  intro l₁
  induction l₁ with
  | nil =>
    intro l₂ _ _ h
    cases l₂ with
    | nil => rfl
    | cons d₂ l₂' => simp at h
  | cons d l ih =>
    intro l₂ h₁ h₂ h
    cases l₂ with
    | nil => simp at h
    | cons d₂ l₂' =>
      simp only [List.map_cons, List.cons.injEq] at h
      have hd : d = d₂ :=
        digitChar_inj d (h₁ d (by simp)) d₂ (h₂ d₂ (by simp)) h.1
      rw [hd, ih l₂' (fun x hx => h₁ x (by simp [hx]))
        (fun x hx => h₂ x (by simp [hx])) h.2]

/-- Decimal rendering is injective. -/
theorem decRepr_inj : ∀ m n : Nat, decRepr m = decRepr n → m = n := by
  have key : ∀ m n : Nat, m ≠ 0 → n ≠ 0 →
      ((Nat.digits 10 m).map Nat.digitChar).reverse =
        ((Nat.digits 10 n).map Nat.digitChar).reverse → m = n := by
    intro m n _ _ h
    have h' := List.reverse_injective h
    have hd := map_digitChar_inj _ _
      (fun d hd => Nat.digits_lt_base (by norm_num) hd)
      (fun d hd => Nat.digits_lt_base (by norm_num) hd) h'
    have hmn := congrArg (Nat.ofDigits 10) hd
    rwa [Nat.ofDigits_digits, Nat.ofDigits_digits] at hmn
  have zero_case : ∀ n : Nat, n ≠ 0 →
      ((Nat.digits 10 n).map Nat.digitChar).reverse ≠ ['0'] := by
    intro n hn h
    have h' : (Nat.digits 10 n).map Nat.digitChar = ['0'] := by
      have := congrArg List.reverse h
      simpa using this
    have hd : Nat.digits 10 n = [0] := by
      apply map_digitChar_inj _ _
        (fun d hd => Nat.digits_lt_base (by norm_num) hd)
        (by intro d hd; simp only [List.mem_singleton] at hd; omega)
      simpa using h'
    have hmn := congrArg (Nat.ofDigits 10) hd
    rw [Nat.ofDigits_digits] at hmn
    simp [Nat.ofDigits] at hmn
    exact hn hmn
  intro m n h
  rw [decRepr, decRepr] at h
  by_cases hm : m = 0 <;> by_cases hn : n = 0
  · rw [hm, hn]
  · rw [if_pos hm, if_neg hn] at h
    exact absurd h.symm (zero_case n hn)
  · rw [if_neg hm, if_pos hn] at h
    exact absurd h (zero_case m hm)
  · rw [if_neg hm, if_neg hn] at h
    exact key m n hm hn h

/-- A dash-join whose first component is dash-free determines the split. -/
theorem append_dash_inj :
    ∀ a c : List Char, ∀ b d : List Char, '-' ∉ a → '-' ∉ c →
      a ++ '-' :: b = c ++ '-' :: d → a = c ∧ b = d := by
  intro a
  induction a with
  | nil =>
    intro c b d _ hc h
    cases c with
    | nil =>
      simp only [List.nil_append, List.cons.injEq] at h
      exact ⟨rfl, h.2⟩
    | cons y c' =>
      simp only [List.nil_append, List.cons_append, List.cons.injEq] at h
      simp only [List.mem_cons, not_or] at hc
      exact absurd h.1 hc.1
  | cons x a' ih =>
    intro c b d ha hc h
    cases c with
    | nil =>
      simp only [List.cons_append, List.nil_append, List.cons.injEq] at h
      simp only [List.mem_cons, not_or] at ha
      exact absurd h.1.symm ha.1
    | cons y c' =>
      simp only [List.cons_append, List.cons.injEq] at h
      simp only [List.mem_cons, not_or] at ha hc
      obtain ⟨h₁, h₂⟩ := ih c' b d ha.2 hc.2 h.2
      exact ⟨by rw [h.1, h₁], h₂⟩

/-- Two task ids agree exactly when their timestamp and index agree. -/
theorem mkTaskId_inj {t i t' i' : Nat} (h : mkTaskId t i = mkTaskId t' i') :
    t = t' ∧ i = i' := by
  have hd : decRepr t ++ '-' :: decRepr i = decRepr t' ++ '-' :: decRepr i' :=
    congrArg String.data h
  obtain ⟨h₁, h₂⟩ := append_dash_inj _ _ _ _
    (dash_not_mem_decRepr t) (dash_not_mem_decRepr t') hd
  exact ⟨decRepr_inj _ _ h₁, decRepr_inj _ _ h₂⟩

/-- Two subtask ids agree exactly when all three components agree. -/
theorem mkSubId_inj {t i j t' i' j' : Nat}
    (h : mkSubId t i j = mkSubId t' i' j') : t = t' ∧ i = i' ∧ j = j' := by
  have hd : decRepr t ++ '-' :: (decRepr i ++ '-' :: decRepr j) =
      decRepr t' ++ '-' :: (decRepr i' ++ '-' :: decRepr j') :=
    congrArg String.data h
  obtain ⟨h₁, h₂⟩ := append_dash_inj _ _ _ _
    (dash_not_mem_decRepr t) (dash_not_mem_decRepr t') hd
  obtain ⟨h₃, h₄⟩ := append_dash_inj _ _ _ _
    (dash_not_mem_decRepr i) (dash_not_mem_decRepr i') h₂
  exact ⟨decRepr_inj _ _ h₁, decRepr_inj _ _ h₃, decRepr_inj _ _ h₄⟩

/-- A task id (one dash) is never a subtask id (two dashes). -/
theorem mkTaskId_ne_mkSubId (t i t' i' j' : Nat) :
    mkTaskId t i ≠ mkSubId t' i' j' := by
  intro h
  have hd : decRepr t ++ '-' :: decRepr i =
      decRepr t' ++ '-' :: (decRepr i' ++ '-' :: decRepr j') :=
    congrArg String.data h
  obtain ⟨-, h₂⟩ := append_dash_inj _ _ _ _
    (dash_not_mem_decRepr t) (dash_not_mem_decRepr t') hd
  have hmem : '-' ∈ decRepr i := by
    rw [h₂]
    exact List.mem_append_right _ (by simp)
  exact dash_not_mem_decRepr i hmem

/-- Every subtask built from step position `j₀` onward carries an id of the
form `mkSubId (tS j) i j` with `j₀ ≤ j`. -/
theorem buildSubs_shape (tS' : Nat → Nat) (now : Int) (i : Nat) :
    ∀ (steps : List StepRec) (j₀ : Nat), ∀ s ∈ buildSubs tS' now i j₀ steps,
      ∃ j, j₀ ≤ j ∧ s.id = mkSubId (tS' j) i j := by
  intro steps
  induction steps with
  | nil => intro j₀ s hs; cases hs
  | cons stp rest ih =>
    intro j₀ s hs
    rw [buildSubs] at hs
    rcases List.mem_cons.mp hs with hs | hs
    · subst hs
      exact ⟨j₀, le_refl _, rfl⟩
    · obtain ⟨j, hj, hid⟩ := ih (j₀ + 1) s hs
      exact ⟨j, by omega, hid⟩

/-- Every task built from record position `i` onward carries an id of the
form `mkTaskId (tT k) k` with `i ≤ k`, and its subtasks ids of the form
`mkSubId (tS k j) k j`. -/
theorem buildAux_shape (tT : Nat → Nat) (tS : Nat → Nat → Nat) (now : Int) :
    ∀ (l : List (Option UpdateRec)) (i : Nat), ∀ t ∈ buildAux tT tS now i l,
      ∃ k, i ≤ k ∧ t.id = mkTaskId (tT k) k ∧
        ∀ s ∈ t.subtasks, ∃ j, s.id = mkSubId (tS k j) k j := by
  intro l
  induction l with
  | nil => intro i t ht; cases ht
  | cons o rest ih =>
    intro i t ht
    rw [buildAux] at ht
    by_cases hv : validRec o = true
    · rw [if_pos hv] at ht
      rcases List.mem_cons.mp ht with ht | ht
      · subst ht
        refine ⟨i, le_refl _, rfl, ?_⟩
        intro s hs
        have hs' : s ∈ buildSubs (tS i) now i 0 ((recOrDefault o).steps.getD []) := hs
        obtain ⟨j, -, hid⟩ := buildSubs_shape (tS i) now i _ 0 s hs'
        exact ⟨j, hid⟩
      · obtain ⟨k, hk, hrest⟩ := ih (i + 1) t ht
        exact ⟨k, by omega, hrest⟩
    · rw [if_neg hv] at ht
      obtain ⟨k, hk, hrest⟩ := ih (i + 1) t ht
      exact ⟨k, by omega, hrest⟩

/-- The task ids of one build pass are pairwise distinct. -/
theorem buildAux_taskIds_nodup (tT : Nat → Nat) (tS : Nat → Nat → Nat) (now : Int) :
    ∀ (l : List (Option UpdateRec)) (i : Nat),
      ((buildAux tT tS now i l).map Task.id).Nodup := by
  intro l
  induction l with
  | nil => intro i; simp [buildAux]
  | cons o rest ih =>
    intro i
    rw [buildAux]
    by_cases hv : validRec o = true
    · rw [if_pos hv, List.map_cons, List.nodup_cons]
      refine ⟨?_, ih (i + 1)⟩
      intro hmem
      obtain ⟨t, ht, hid⟩ := List.mem_map.mp hmem
      obtain ⟨k, hk, hkid, -⟩ := buildAux_shape tT tS now rest (i + 1) t ht
      have h2 : mkTaskId (tT k) k = mkTaskId (tT i) i := by
        rw [← hkid]
        exact hid
      have := (mkTaskId_inj h2).2
      omega
    · rw [if_neg hv]
      exact ih (i + 1)

/-- The subtask ids inside one built task are pairwise distinct. -/
theorem buildSubs_ids_nodup (tS' : Nat → Nat) (now : Int) (i : Nat) :
    ∀ (steps : List StepRec) (j₀ : Nat),
      ((buildSubs tS' now i j₀ steps).map SubTask.id).Nodup := by
  intro steps
  induction steps with
  | nil => intro j₀; simp [buildSubs]
  | cons stp rest ih =>
    intro j₀
    rw [buildSubs, List.map_cons, List.nodup_cons]
    refine ⟨?_, ih (j₀ + 1)⟩
    intro hmem
    obtain ⟨s, hs, hid⟩ := List.mem_map.mp hmem
    obtain ⟨j, hj, hjid⟩ := buildSubs_shape tS' now i rest (j₀ + 1) s hs
    have h2 : mkSubId (tS' j) i j = mkSubId (tS' j₀) i j₀ := by
      rw [← hjid]
      exact hid
    have := (mkSubId_inj h2).2.2
    omega

/-- All subtask ids of one build pass (across tasks) are pairwise distinct. -/
theorem buildAux_subIds_nodup (tT : Nat → Nat) (tS : Nat → Nat → Nat) (now : Int) :
    ∀ (l : List (Option UpdateRec)) (i : Nat),
      ((buildAux tT tS now i l).flatMap fun t => t.subtasks.map SubTask.id).Nodup := by
  intro l
  induction l with
  | nil => intro i; simp [buildAux]
  | cons o rest ih =>
    intro i
    rw [buildAux]
    by_cases hv : validRec o = true
    · rw [if_pos hv, List.flatMap_cons, List.nodup_append]
      refine ⟨buildSubs_ids_nodup (tS i) now i _ 0, ih (i + 1), ?_⟩
      intro a ha hb
      obtain ⟨s, hs, hid⟩ := List.mem_map.mp ha
      have hs' : s ∈ buildSubs (tS i) now i 0 ((recOrDefault o).steps.getD []) := hs
      obtain ⟨j, -, hjid⟩ := buildSubs_shape (tS i) now i _ 0 s hs'
      obtain ⟨t', ht', hat⟩ := List.mem_flatMap.mp hb
      obtain ⟨s', hs2, hid2⟩ := List.mem_map.mp hat
      obtain ⟨k, hk, -, hsubs⟩ := buildAux_shape tT tS now rest (i + 1) t' ht'
      obtain ⟨j', hj'id⟩ := hsubs s' hs2
      have hss : s.id = s'.id := by
        rw [hid, hid2]
      rw [hjid, hj'id] at hss
      have := (mkSubId_inj hss).2.1
      omega
    · rw [if_neg hv]
      exact ih (i + 1)

/-- Claim C9: within one build pass all generated identifiers are pairwise
distinct — task ids among themselves, subtask ids among themselves within
and across tasks, and no task id equals any subtask id — for every possible
sequence of `Date.now()` readings. -/
theorem c9_ids_distinct (tT : Nat → Nat) (tS : Nat → Nat → Nat) (now : Int)
    (updates : List (Option UpdateRec)) :
    (((buildTasks tT tS now updates).map Task.id) ++
      ((buildTasks tT tS now updates).flatMap
        fun t => t.subtasks.map SubTask.id)).Nodup := by
  simp only [buildTasks]
  rw [List.nodup_append]
  refine ⟨buildAux_taskIds_nodup tT tS now updates 0,
    buildAux_subIds_nodup tT tS now updates 0, ?_⟩
  intro a ha hb
  obtain ⟨t, ht, hid⟩ := List.mem_map.mp ha
  obtain ⟨k, -, hkid, -⟩ := buildAux_shape tT tS now updates 0 t ht
  obtain ⟨t', ht', hat⟩ := List.mem_flatMap.mp hb
  obtain ⟨s', hs2, hid2⟩ := List.mem_map.mp hat
  obtain ⟨k', -, -, hsubs⟩ := buildAux_shape tT tS now updates 0 t' ht'
  obtain ⟨j', hj'id⟩ := hsubs s' hs2
  have hts : t.id = s'.id := by
    rw [hid, hid2]
  rw [hkid, hj'id] at hts
  exact mkTaskId_ne_mkSubId _ _ _ _ _ hts

end AIHackathon
